import Mathlib

/-!
Verification of the google-lens-search request pipeline (src/main.py).

Strings that the program splits and compares are modelled as `List Char`
(Python `str.split(sep)` with a non-empty separator is modelled by `pySplit`
below).  Parsed JSON payloads are modelled by the inductive `JValue`; Python
dicts appear as association lists with unique keys, looked up by `lookupField`.
Each pipeline stage returns an `Outcome`: `ok` for a normal return,
`httpError` for a raised `HTTPException (status, detail)`, and `pyError` for
an uncaught Python exception.  The two outbound HTTP calls are exogenous:
their stubbed responses are part of the `World` the pipeline runs in, and
`process_instagram_url` additionally records which outbound calls were made.
-/

set_option maxRecDepth 4096

/-- A parsed JSON value (what Python's `response.json()` yields). -/
inductive JValue where
  | null : JValue
  | bool : Bool → JValue
  | num : Int → JValue
  | str : String → JValue
  | arr : List JValue → JValue
  | obj : List (String × JValue) → JValue

/-- A match record: one element of the `visual_matches` list, a JSON object
modelled as its (unique-keyed) field list. -/
abbrev MatchRecord : Type := List (String × JValue)

/-- Python dict lookup `d[k]` (keys are unique, so first match suffices). -/
def lookupField : List (String × JValue) → String → Option JValue
  | [], _ => none
  | (k', v) :: rest, k => if k = k' then some v else lookupField rest k

/-- Python `k in d` for a dict. -/
def hasKey (fs : List (String × JValue)) (k : String) : Bool :=
  (lookupField fs k).isSome

/-- Python `x is True` applied to a looked-up JSON value: true exactly for
the JSON literal `true`. -/
def isTrueV : Option JValue → Bool
  | some (JValue.bool true) => true
  | _ => false

/-- Python dict assignment `d[k] = v`: replaces the value of an existing key
in place (key order preserved), appends when the key is absent. -/
def setField : List (String × JValue) → String → JValue → List (String × JValue)
  | [], k, v => [(k, v)]
  | (k', v') :: rest, k, v =>
    if k' = k then (k, v) :: rest else (k', v') :: setField rest k v

/-- Uncaught Python exception kinds relevant to this program. -/
inductive PyExc where
  | keyError : PyExc
  | typeError : PyExc
  | indexError : PyExc
deriving DecidableEq

/-- Result of one pipeline stage: a normal return, a raised
`HTTPException(status, detail)`, or an uncaught Python exception. -/
inductive Outcome (α : Type) where
  | ok : α → Outcome α
  | httpError : Nat → String → Outcome α
  | pyError : PyExc → Outcome α

/-- Whether a stage returned normally. -/
def Outcome.isOk {α : Type} : Outcome α → Bool
  | Outcome.ok _ => true
  | _ => false

/-- src/main.py `filter_visual_matches`: keeps the records with a `price`
key and an `in_stock` key whose value is the boolean `true`. -/
def filter_visual_matches : List MatchRecord → List MatchRecord
  | [] => []
  | m :: rest =>
    if hasKey m "price" && hasKey m "in_stock" && isTrueV (lookupField m "in_stock") then
      m :: filter_visual_matches rest
    else
      filter_visual_matches rest

/-- The filter's predicate, as a standalone function. -/
def keepMatch (m : MatchRecord) : Bool :=
  hasKey m "price" && hasKey m "in_stock" && isTrueV (lookupField m "in_stock")

lemma filter_visual_matches_eq_filter (vs : List MatchRecord) :
    filter_visual_matches vs = vs.filter keepMatch := by
  induction vs with
  | nil => rfl
  | cons m rest ih =>
    by_cases h : keepMatch m = true
    · have h' := h
      unfold keepMatch at h'
      simp [filter_visual_matches, h', List.filter_cons, h, ih]
    · have h' : (hasKey m "price" && hasKey m "in_stock"
          && isTrueV (lookupField m "in_stock")) = false := by
        unfold keepMatch at h
        simpa using h
      simp [filter_visual_matches, h', List.filter_cons, h, ih]

lemma keepMatch_iff (m : MatchRecord) :
    keepMatch m = true ↔
      (lookupField m "price").isSome = true
        ∧ lookupField m "in_stock" = some (JValue.bool true) := by
  unfold keepMatch hasKey
  cases hp : lookupField m "price" with
  | none => simp [hp]
  | some vp =>
    cases hs : lookupField m "in_stock" with
    | none => simp [hp, hs, isTrueV]
    | some vs =>
      cases vs with
      | bool b =>
        cases b with
        | true => simp [hp, hs, isTrueV]
        | false => simp [hp, hs, isTrueV]
      | null => simp [hp, hs, isTrueV]
      | num n => simp [hp, hs, isTrueV]
      | str s => simp [hp, hs, isTrueV]
      | arr xs => simp [hp, hs, isTrueV]
      | obj fs => simp [hp, hs, isTrueV]

/-- C1: the result filter, applied to any list of match records, keeps
exactly those records that contain a "price" key and an "in_stock" key whose
value is exactly boolean `true`, drops all other records, preserves the
relative order of the surviving records (it equals `List.filter` of the
predicate), and does not modify any field of any record. -/
theorem filter_visual_matches_correct :
    (∀ vs : List MatchRecord, filter_visual_matches vs = vs.filter keepMatch)
    ∧ (∀ m : MatchRecord,
        keepMatch m = true ↔
          (lookupField m "price").isSome = true
            ∧ lookupField m "in_stock" = some (JValue.bool true)) :=
  ⟨filter_visual_matches_eq_filter, keepMatch_iff⟩

/-- Witness for C1 at a concrete list: one qualifying record, one record
missing `price`, one with `in_stock` false. -/
theorem filter_visual_matches_correct_witness :
    filter_visual_matches
        [[("price", JValue.num 10), ("in_stock", JValue.bool true)],
         [("in_stock", JValue.bool true)],
         [("price", JValue.num 3), ("in_stock", JValue.bool false)]]
      = List.filter keepMatch
        [[("price", JValue.num 10), ("in_stock", JValue.bool true)],
         [("in_stock", JValue.bool true)],
         [("price", JValue.num 3), ("in_stock", JValue.bool false)]]
    ∧ (keepMatch [("price", JValue.num 10), ("in_stock", JValue.bool true)] = true ↔
        (lookupField [("price", JValue.num 10), ("in_stock", JValue.bool true)] "price").isSome = true
          ∧ lookupField [("price", JValue.num 10), ("in_stock", JValue.bool true)] "in_stock"
              = some (JValue.bool true)) :=
  ⟨filter_visual_matches_correct.1 _, filter_visual_matches_correct.2 _⟩

/-- C7: the result filter is idempotent: applying it twice yields the same
list as applying it once. -/
theorem filter_visual_matches_idem (vs : List MatchRecord) :
    filter_visual_matches (filter_visual_matches vs) = filter_visual_matches vs := by
  rw [filter_visual_matches_eq_filter, filter_visual_matches_eq_filter,
    List.filter_filter]
  simp

/-- Witness for C7 at a concrete list. -/
theorem filter_visual_matches_idem_witness :
    filter_visual_matches
        (filter_visual_matches
          [[("price", JValue.num 1), ("in_stock", JValue.bool true)],
           [("price", JValue.num 2)]])
      = filter_visual_matches
          [[("price", JValue.num 1), ("in_stock", JValue.bool true)],
           [("price", JValue.num 2)]] :=
  filter_visual_matches_idem _

/-- Python `s.split(sep)` for a non-empty separator `c :: cs`, with explicit
fuel (the scan consumes at least one character per step, so `s.length + 1`
fuel always suffices): cut at each leftmost occurrence of the separator,
scanning left to right without overlap. -/
def pySplitF : Nat → Char → List Char → List Char → List (List Char)
  | 0, _, _, s => [s]
  | fuel + 1, c, cs, s =>
    match s with
    | [] => [[]]
    | x :: rest =>
      if (c :: cs).isPrefixOf (x :: rest) then
        [] :: pySplitF fuel c cs (List.drop cs.length rest)
      else
        match pySplitF fuel c cs rest with
        | [] => [[x]]
        | a :: as => (x :: a) :: as

/-- Python `s.split(sep)`.  Python raises `ValueError` on an empty
separator; the program only ever splits on `"/p/"`, `"/"` and `" "`, so the
empty-separator arm is never exercised. -/
def pySplit (sep s : List Char) : List (List Char) :=
  match sep with
  | [] => [s]
  | c :: cs => pySplitF (s.length + 1) c cs s

lemma isPrefixOf_iff_append (p l : List Char) :
    p.isPrefixOf l = true ↔ ∃ t, l = p ++ t := by
  induction p generalizing l with
  | nil => simp [List.isPrefixOf]
  | cons a as ih =>
    cases l with
    | nil => simp [List.isPrefixOf]
    | cons b bs =>
      simp only [List.isPrefixOf, Bool.and_eq_true, beq_iff_eq, ih]
      constructor
      · rintro ⟨rfl, t, rfl⟩
        exact ⟨t, rfl⟩
      · rintro ⟨t, ht⟩
        injection ht with h1 h2
        exact ⟨h1.symm, t, h2⟩

lemma isPrefixOf_append_self (p t : List Char) : p.isPrefixOf (p ++ t) = true :=
  (isPrefixOf_iff_append p (p ++ t)).mpr ⟨t, rfl⟩

lemma pySplitF_ne_nil (fuel : Nat) (c : Char) (cs s : List Char) :
    pySplitF fuel c cs s ≠ [] := by
  cases fuel with
  | zero => simp [pySplitF]
  | succ f =>
    cases s with
    | nil => simp [pySplitF]
    | cons x rest =>
      simp only [pySplitF]
      split
      · simp
      · split <;> simp

lemma pySplitF_irrel :
    ∀ (f1 f2 : Nat) (c : Char) (cs s : List Char),
      s.length < f1 → s.length < f2 → pySplitF f1 c cs s = pySplitF f2 c cs s := by
  intro f1
  induction f1 with
  | zero =>
    intro f2 c cs s h1 h2
    exact absurd h1 (Nat.not_lt_zero _)
  | succ f1' ih =>
    intro f2 c cs s h1 h2
    cases f2 with
    | zero => exact absurd h2 (Nat.not_lt_zero _)
    | succ f2' =>
      cases s with
      | nil => rfl
      | cons x rest =>
        simp only [List.length_cons] at h1 h2
        by_cases hp : (c :: cs).isPrefixOf (x :: rest) = true
        · simp only [pySplitF, if_pos hp]
          congr 1
          apply ih
          · have := List.length_drop cs.length rest
            omega
          · have := List.length_drop cs.length rest
            omega
        · have hr : pySplitF f1' c cs rest = pySplitF f2' c cs rest := by
            apply ih <;> omega
          simp only [pySplitF, if_neg hp, hr]

lemma drop_len_append (a t : List Char) : List.drop a.length (a ++ t) = t := by
  induction a with
  | nil => simp
  | cons y a' ih => simp [ih]

lemma prefixOf_false_of_head_not_mem :
    ∀ (a : List Char) (c : Char) (cs t : List Char), c ∉ a →
      ∀ i, i < a.length → (c :: cs).isPrefixOf (List.drop i (a ++ t)) = false := by
  intro a
  induction a with
  | nil =>
    intro c cs t hc i hi
    simp at hi
  | cons y a' ih =>
    intro c cs t hc i hi
    cases i with
    | zero =>
      have hcy : c ≠ y := fun h => hc (by simp [h])
      show (c :: cs).isPrefixOf (y :: (a' ++ t)) = false
      simp [List.isPrefixOf, hcy]
    | succ j =>
      rw [show ((y :: a') ++ t) = y :: (a' ++ t) from rfl, List.drop_succ_cons]
      refine ih c cs t (fun h => hc (List.mem_cons_of_mem _ h)) j ?_
      simp only [List.length_cons] at hi
      omega

lemma pySplitF_peel :
    ∀ (fuel : Nat) (c : Char) (cs a b : List Char),
      (a ++ (c :: cs) ++ b).length < fuel →
      (∀ i, i < a.length →
        (c :: cs).isPrefixOf (List.drop i (a ++ (c :: cs) ++ b)) = false) →
      pySplitF fuel c cs (a ++ (c :: cs) ++ b) = a :: pySplit (c :: cs) b := by
  intro fuel
  induction fuel with
  | zero =>
    intro c cs a b hlen hocc
    exact absurd hlen (Nat.not_lt_zero _)
  | succ f ih =>
    intro c cs a b hlen hocc
    cases a with
    | nil =>
      show pySplitF (f + 1) c cs (c :: (cs ++ b)) = [] :: pySplit (c :: cs) b
      have hpre : (c :: cs).isPrefixOf (c :: (cs ++ b)) = true :=
        isPrefixOf_append_self (c :: cs) b
      simp only [pySplitF, if_pos hpre]
      congr 1
      rw [drop_len_append cs b]
      show pySplitF f c cs b = pySplitF (b.length + 1) c cs b
      apply pySplitF_irrel
      · simp only [List.nil_append, List.length_append, List.length_cons] at hlen
        omega
      · omega
    | cons y a' =>
      have h0 := hocc 0 (by simp)
      rw [List.drop_zero] at h0
      show pySplitF (f + 1) c cs (y :: (a' ++ (c :: cs) ++ b))
        = (y :: a') :: pySplit (c :: cs) b
      have h0' : (c :: cs).isPrefixOf (y :: (a' ++ (c :: cs) ++ b)) = false := h0
      have hrec := ih c cs a' b
        (by simp only [List.cons_append, List.length_cons] at hlen ⊢; omega)
        (by
          intro i hi
          have := hocc (i + 1) (by simp only [List.length_cons]; omega)
          rw [show ((y :: a') ++ (c :: cs) ++ b) = y :: (a' ++ (c :: cs) ++ b) from rfl,
            List.drop_succ_cons] at this
          exact this)
      simp only [pySplitF, h0', Bool.false_eq_true, if_false, hrec]

lemma pySplit_peel (c : Char) (cs a b : List Char)
    (hocc : ∀ i, i < a.length →
      (c :: cs).isPrefixOf (List.drop i (a ++ (c :: cs) ++ b)) = false) :
    pySplit (c :: cs) (a ++ (c :: cs) ++ b) = a :: pySplit (c :: cs) b := by
  show pySplitF ((a ++ (c :: cs) ++ b).length + 1) c cs (a ++ (c :: cs) ++ b)
    = a :: pySplit (c :: cs) b
  exact pySplitF_peel _ c cs a b (by omega) hocc

lemma pySplitF_single :
    ∀ (fuel : Nat) (c : Char) (cs s : List Char),
      s.length < fuel →
      (∀ i, i < s.length → (c :: cs).isPrefixOf (List.drop i s) = false) →
      pySplitF fuel c cs s = [s] := by
  intro fuel
  induction fuel with
  | zero =>
    intro c cs s hlen hocc
    exact absurd hlen (Nat.not_lt_zero _)
  | succ f ih =>
    intro c cs s hlen hocc
    cases s with
    | nil => rfl
    | cons x rest =>
      have h0 := hocc 0 (by simp)
      rw [List.drop_zero] at h0
      have hrec := ih c cs rest
        (by simp only [List.length_cons] at hlen; omega)
        (by
          intro i hi
          have := hocc (i + 1) (by simp only [List.length_cons]; omega)
          rw [List.drop_succ_cons] at this
          exact this)
      simp only [pySplitF, h0, Bool.false_eq_true, if_false, hrec]

lemma pySplit_single (c : Char) (cs s : List Char)
    (hocc : ∀ i, i < s.length → (c :: cs).isPrefixOf (List.drop i s) = false) :
    pySplit (c :: cs) s = [s] := by
  show pySplitF (s.length + 1) c cs s = [s]
  exact pySplitF_single _ c cs s (by omega) hocc

lemma pySplitF_head :
    ∀ (fuel : Nat) (c : Char) (cs a b : List Char),
      (a ++ b).length < fuel →
      (∀ i, i < a.length → (c :: cs).isPrefixOf (List.drop i (a ++ b)) = false) →
      ∃ r tl, pySplitF fuel c cs (a ++ b) = (a ++ r) :: tl
        ∧ (b = r ∨ ∃ b', b = r ++ (c :: cs) ++ b') := by
  intro fuel
  induction fuel with
  | zero =>
    intro c cs a b hlen hocc
    exact absurd hlen (Nat.not_lt_zero _)
  | succ f ih =>
    intro c cs a b hlen hocc
    cases a with
    | nil =>
      cases b with
      | nil => exact ⟨[], [], by simp [pySplitF], Or.inl rfl⟩
      | cons x rest =>
        by_cases hp : (c :: cs).isPrefixOf (x :: rest) = true
        · refine ⟨[], pySplitF f c cs (List.drop cs.length rest), ?_, ?_⟩
          · simp [pySplitF, hp]
          · right
            obtain ⟨t, ht⟩ := (isPrefixOf_iff_append _ _).mp hp
            exact ⟨t, by simpa using ht⟩
        · obtain ⟨r, tl, hrec, hd⟩ := ih c cs [] rest
            (by simp only [List.nil_append, List.length_cons] at hlen ⊢; omega)
            (by intro i hi; simp at hi)
          simp only [List.nil_append] at hrec
          refine ⟨x :: r, tl, ?_, ?_⟩
          · have hpf : (c :: cs).isPrefixOf (x :: rest) = false :=
              Bool.eq_false_iff.mpr hp
            show pySplitF (f + 1) c cs (x :: rest) = (x :: r) :: tl
            simp only [pySplitF, hpf, Bool.false_eq_true, if_false, hrec]
          · rcases hd with hd | ⟨b', hb⟩
            · exact Or.inl (by rw [hd])
            · exact Or.inr ⟨b', by rw [hb]; rfl⟩
    | cons y a' =>
      have h0 := hocc 0 (by simp)
      rw [List.drop_zero] at h0
      have h0' : (c :: cs).isPrefixOf (y :: (a' ++ b)) = false := h0
      obtain ⟨r, tl, hrec, hd⟩ := ih c cs a' b
        (by simp only [List.cons_append, List.length_cons] at hlen ⊢; omega)
        (by
          intro i hi
          have := hocc (i + 1) (by simp only [List.length_cons]; omega)
          rw [show ((y :: a') ++ b) = y :: (a' ++ b) from rfl,
            List.drop_succ_cons] at this
          exact this)
      refine ⟨r, tl, ?_, hd⟩
      show pySplitF (f + 1) c cs (y :: (a' ++ b)) = ((y :: a') ++ r) :: tl
      simp only [pySplitF, h0', Bool.false_eq_true, if_false, hrec]
      rfl

lemma pySplit_head (c : Char) (cs a b : List Char)
    (hocc : ∀ i, i < a.length →
      (c :: cs).isPrefixOf (List.drop i (a ++ b)) = false) :
    ∃ r tl, pySplit (c :: cs) (a ++ b) = (a ++ r) :: tl
      ∧ (b = r ∨ ∃ b', b = r ++ (c :: cs) ++ b') := by
  show ∃ r tl, pySplitF ((a ++ b).length + 1) c cs (a ++ b) = (a ++ r) :: tl
    ∧ (b = r ∨ ∃ b', b = r ++ (c :: cs) ++ b')
  exact pySplitF_head _ c cs a b (by omega) hocc

lemma pySplitF_two :
    ∀ (fuel : Nat) (c : Char) (cs a b : List Char),
      (a ++ (c :: cs) ++ b).length < fuel →
      2 ≤ (pySplitF fuel c cs (a ++ (c :: cs) ++ b)).length := by
  intro fuel
  induction fuel with
  | zero =>
    intro c cs a b hlen
    exact absurd hlen (Nat.not_lt_zero _)
  | succ f ih =>
    intro c cs a b hlen
    cases a with
    | nil =>
      show 2 ≤ (pySplitF (f + 1) c cs (c :: (cs ++ b))).length
      have hpre : (c :: cs).isPrefixOf (c :: (cs ++ b)) = true :=
        isPrefixOf_append_self (c :: cs) b
      simp only [pySplitF, if_pos hpre, List.length_cons]
      have := List.length_pos.mpr (pySplitF_ne_nil f c cs (List.drop cs.length (cs ++ b)))
      omega
    | cons y a' =>
      show 2 ≤ (pySplitF (f + 1) c cs (y :: (a' ++ (c :: cs) ++ b))).length
      by_cases hp : (c :: cs).isPrefixOf (y :: (a' ++ (c :: cs) ++ b)) = true
      · simp only [pySplitF, if_pos hp, List.length_cons]
        have := List.length_pos.mpr
          (pySplitF_ne_nil f c cs (List.drop cs.length (a' ++ (c :: cs) ++ b)))
        omega
      · have hpf : (c :: cs).isPrefixOf (y :: (a' ++ (c :: cs) ++ b)) = false :=
          Bool.eq_false_iff.mpr hp
        have h2 := ih c cs a' b
          (by simp only [List.cons_append, List.length_cons] at hlen ⊢; omega)
        simp only [pySplitF, hpf, Bool.false_eq_true, if_false]
        cases hrec : pySplitF f c cs (a' ++ (c :: cs) ++ b) with
        | nil => exact absurd hrec (pySplitF_ne_nil f c cs _)
        | cons hd tl =>
          rw [hrec] at h2
          simp only [List.length_cons] at h2 ⊢
          omega

lemma pySplit_two (c : Char) (cs a b : List Char) :
    2 ≤ (pySplit (c :: cs) (a ++ (c :: cs) ++ b)).length := by
  show 2 ≤ (pySplitF ((a ++ (c :: cs) ++ b).length + 1) c cs (a ++ (c :: cs) ++ b)).length
  exact pySplitF_two _ c cs a b (by omega)

lemma pySplitF_mem_single :
    ∀ (fuel : Nat) (c : Char) (s x : List Char),
      s.length < fuel → x ∈ pySplitF fuel c [] s → c ∉ x := by
  intro fuel
  induction fuel with
  | zero =>
    intro c s x hlen
    exact absurd hlen (Nat.not_lt_zero _)
  | succ f ih =>
    intro c s x hlen hx
    cases s with
    | nil =>
      simp only [pySplitF, List.mem_singleton] at hx
      subst hx
      simp
    | cons y rest =>
      simp only [List.length_cons] at hlen
      by_cases hp : ([c]).isPrefixOf (y :: rest) = true
      · simp only [pySplitF, if_pos hp, List.length_nil, List.drop_zero,
          List.mem_cons] at hx
        rcases hx with hx | hx
        · subst hx; simp
        · exact ih c rest x (by omega) hx
      · have hpf : ([c]).isPrefixOf (y :: rest) = false := Bool.eq_false_iff.mpr hp
        have hcy : c ≠ y := by
          intro h
          subst h
          simp [List.isPrefixOf] at hpf
        simp only [pySplitF, hpf, Bool.false_eq_true, if_false] at hx
        cases hrec : pySplitF f c [] rest with
        | nil => exact absurd hrec (pySplitF_ne_nil f c [] rest)
        | cons a as =>
          rw [hrec] at hx
          rcases List.mem_cons.mp hx with hx | hx
          · subst hx
            intro hmem
            rcases List.mem_cons.mp hmem with h' | h'
            · exact hcy h'
            · exact ih c rest a (by omega) (by rw [hrec]; exact List.mem_cons_self a as) h'
          · exact ih c rest x (by omega) (by rw [hrec]; exact List.mem_cons_of_mem a hx)

lemma pySplit_mem_single (c : Char) (s x : List Char)
    (hx : x ∈ pySplit [c] s) : c ∉ x := by
  have hx' : x ∈ pySplitF (s.length + 1) c [] s := hx
  exact pySplitF_mem_single _ c s x (by omega) hx'

lemma getElem_zero_of_ne_nil (l : List (List Char)) (h : l ≠ []) :
    ∃ x, l[0]? = some x := by
  cases l with
  | nil => exact absurd rfl h
  | cons a l' => exact ⟨a, by simp⟩

lemma getElem_one_of_two_le (l : List (List Char)) (h : 2 ≤ l.length) :
    ∃ x, l[1]? = some x := by
  cases l with
  | nil => simp at h
  | cons a l' =>
    cases l' with
    | nil => simp at h
    | cons b l'' => exact ⟨b, by simp⟩

/-- src/main.py `extract_instagram_id`:
`url.split("/p/")[1].split("/")[0]`, with any `IndexError` mapped to
`HTTPException(400, "Invalid Instagram URL format")`.  (The second index `[0]`
can in fact never fail, but the `except` covers both.) -/
def extract_instagram_id (url : List Char) : Outcome (List Char) :=
  match (pySplit ("/p/".toList) url)[1]? with
  | none => Outcome.httpError 400 "Invalid Instagram URL format"
  | some seg =>
    match (pySplit ("/".toList) seg)[0]? with
    | some s => Outcome.ok s
    | none => Outcome.httpError 400 "Invalid Instagram URL format"

lemma pySplit_slash_head (pid t : List Char) (hslash : '/' ∉ pid) :
    (pySplit ("/".toList) (pid ++ '/' :: t))[0]? = some pid := by
  have heq : pid ++ ('/' :: ([] : List Char)) ++ t = pid ++ '/' :: t := by simp
  have hocc : ∀ i, i < pid.length →
      (('/' : Char) :: ([] : List Char)).isPrefixOf
        (List.drop i (pid ++ ('/' :: ([] : List Char)) ++ t)) = false := by
    intro i hi
    rw [heq]
    exact prefixOf_false_of_head_not_mem pid '/' [] ('/' :: t) hslash i hi
  have hpeel := pySplit_peel '/' [] pid t hocc
  rw [heq] at hpeel
  show (pySplit ['/'] (pid ++ '/' :: t))[0]? = some pid
  rw [hpeel]
  simp

lemma pySplit_slash_noslash (pid : List Char) (hslash : '/' ∉ pid) :
    (pySplit ("/".toList) pid)[0]? = some pid := by
  have hocc : ∀ i, i < pid.length →
      (('/' : Char) :: ([] : List Char)).isPrefixOf (List.drop i pid) = false := by
    intro i hi
    have := prefixOf_false_of_head_not_mem pid '/' [] [] hslash i hi
    rw [List.append_nil] at this
    exact this
  show (pySplit ['/'] pid)[0]? = some pid
  rw [pySplit_single '/' [] pid hocc]
  simp

/-- C2 (amended): for every URL whose first occurrence of the marker "/p/" is
followed by a slash-free segment `pid` and a subsequent "/", the extractor
returns exactly `pid`; it fails with HTTP 400 exactly when "/p/" does not
occur in the URL at all (and whenever "/p/" occurs, it succeeds — in
particular a URL ending right after the marker yields the empty identifier
rather than an error). -/
theorem extract_instagram_id_spec :
    (∀ pre pid suf : List Char,
      (∀ i, i < pre.length →
        ("/p/".toList).isPrefixOf
          (List.drop i (pre ++ "/p/".toList ++ (pid ++ '/' :: suf))) = false) →
      '/' ∉ pid →
      extract_instagram_id (pre ++ "/p/".toList ++ (pid ++ '/' :: suf))
        = Outcome.ok pid)
    ∧ (∀ url : List Char,
        (∀ i, i < url.length →
          ("/p/".toList).isPrefixOf (List.drop i url) = false) →
        extract_instagram_id url
          = Outcome.httpError 400 "Invalid Instagram URL format")
    ∧ (∀ a b : List Char, ∃ s,
        extract_instagram_id (a ++ "/p/".toList ++ b) = Outcome.ok s) := by
  have hm : ("/p/".toList) = '/' :: ['p', '/'] := rfl
  refine ⟨?_, ?_, ?_⟩
  · intro pre pid suf hocc hslash
    have hsplit : pySplit ("/p/".toList) (pre ++ "/p/".toList ++ (pid ++ '/' :: suf))
        = pre :: pySplit ("/p/".toList) (pid ++ '/' :: suf) := by
      rw [hm]
      rw [hm] at hocc
      exact pySplit_peel '/' ['p', '/'] pre (pid ++ '/' :: suf) hocc
    have hhead : ∃ r tl,
        pySplit ("/p/".toList) (pid ++ '/' :: suf) = (pid ++ r) :: tl
          ∧ ('/' :: suf = r ∨ ∃ b', '/' :: suf = r ++ "/p/".toList ++ b') := by
      rw [hm]
      exact pySplit_head '/' ['p', '/'] pid ('/' :: suf)
        (prefixOf_false_of_head_not_mem pid '/' ['p', '/'] ('/' :: suf) hslash)
    obtain ⟨r, tl, hsp2, hr⟩ := hhead
    have hsecond : (pySplit ("/".toList) (pid ++ r))[0]? = some pid := by
      rcases hr with hr | ⟨b', hb⟩
      · rw [← hr]
        exact pySplit_slash_head pid suf hslash
      · cases r with
        | nil =>
          rw [List.append_nil]
          exact pySplit_slash_noslash pid hslash
        | cons rc r' =>
          have hb' : '/' :: suf = rc :: (r' ++ "/p/".toList ++ b') := by
            rw [hb]
            rfl
          have hrc : rc = '/' := by
            injection hb' with h1 h2
            exact h1.symm
          subst hrc
          exact pySplit_slash_head pid r' hslash
    unfold extract_instagram_id
    rw [hsplit]
    simp only [List.getElem?_cons_succ]
    rw [hsp2]
    simp only [List.getElem?_cons_zero]
    rw [hsecond]
  · intro url hocc
    have h1 : pySplit ("/p/".toList) url = [url] := by
      rw [hm]
      rw [hm] at hocc
      exact pySplit_single '/' ['p', '/'] url hocc
    unfold extract_instagram_id
    rw [h1]
    simp only [List.getElem?_cons_succ, List.getElem?_nil]
  · intro a b
    have h2le : 2 ≤ (pySplit ("/p/".toList) (a ++ "/p/".toList ++ b)).length := by
      rw [hm]
      exact pySplit_two '/' ['p', '/'] a b
    obtain ⟨seg, hseg⟩ := getElem_one_of_two_le _ h2le
    have hne : pySplit ("/".toList) seg ≠ [] := pySplitF_ne_nil _ '/' [] seg
    obtain ⟨s, hs⟩ := getElem_zero_of_ne_nil _ hne
    refine ⟨s, ?_⟩
    unfold extract_instagram_id
    rw [hseg]
    dsimp only
    rw [hs]

/-- C2 counterexample: the URL "a/p/" contains the marker "/p/" but no
trailing segment after it; the extractor nevertheless succeeds with the
empty identifier instead of failing with HTTP 400. -/
theorem extract_instagram_id_cex :
    extract_instagram_id ("a/p/".toList) = Outcome.ok [] := rfl

/-- Witness for C2 (amended) at concrete URLs. -/
theorem extract_instagram_id_spec_witness :
    extract_instagram_id
        ("ig.com".toList ++ "/p/".toList ++ ("ABC".toList ++ '/' :: "x".toList))
      = Outcome.ok ("ABC".toList)
    ∧ extract_instagram_id ("nope".toList)
        = Outcome.httpError 400 "Invalid Instagram URL format"
    ∧ ∃ s, extract_instagram_id ("q".toList ++ "/p/".toList ++ "Z".toList)
        = Outcome.ok s :=
  ⟨extract_instagram_id_spec.1 _ _ _ (by decide) (by decide),
   extract_instagram_id_spec.2.1 _ (by decide),
   extract_instagram_id_spec.2.2 _ _⟩

/-- The literal prefix checked by `auth_header.startswith("Bearer ")`. -/
def bearerMarker : List Char := "Bearer ".toList

/-- src/main.py `verify_auth_token`: 401 when the Authorization header is
missing or does not start with "Bearer "; otherwise the token is
`auth_header.split(" ")[1]`, and a token different from `AUTH_TOKEN` (an
optional configured secret, `none` when the environment variable is unset)
yields 403.  The `[1]` index cannot fail once the prefix check passed; the
`pyError` arm models the (unreachable) uncaught `IndexError`. -/
def verify_auth_token (authToken : Option (List Char))
    (header : Option (List Char)) : Outcome Unit :=
  match header with
  | none => Outcome.httpError 401 "Authorization header missing or invalid"
  | some h =>
    if bearerMarker.isPrefixOf h then
      match (pySplit (" ".toList) h)[1]? with
      | some token =>
        if authToken = some token then Outcome.ok ()
        else Outcome.httpError 403 "Invalid auth token"
      | none => Outcome.pyError PyExc.indexError
    else Outcome.httpError 401 "Authorization header missing or invalid"

lemma mem_of_getElem_some :
    ∀ (l : List (List Char)) (i : Nat) (x : List Char), l[i]? = some x → x ∈ l := by
  intro l
  induction l with
  | nil =>
    intro i x h
    simp at h
  | cons a l' ih =>
    intro i x h
    cases i with
    | zero =>
      simp only [List.getElem?_cons_zero, Option.some.injEq] at h
      subst h
      exact List.mem_cons_self a l'
    | succ j =>
      simp only [List.getElem?_cons_succ] at h
      exact List.mem_cons_of_mem a (ih j x h)

lemma bearer_split (rest : List Char) :
    pySplit (" ".toList) (bearerMarker ++ rest)
      = "Bearer".toList :: pySplit (" ".toList) rest := by
  have heq : "Bearer".toList ++ (' ' :: ([] : List Char)) ++ rest
      = "Bearer".toList ++ (' ' :: rest) := by simp
  have hocc : ∀ i, i < ("Bearer".toList).length →
      ((' ' : Char) :: ([] : List Char)).isPrefixOf
        (List.drop i ("Bearer".toList ++ (' ' :: ([] : List Char)) ++ rest)) = false := by
    intro i hi
    rw [heq]
    exact prefixOf_false_of_head_not_mem "Bearer".toList ' ' [] (' ' :: rest)
      (by decide) i hi
  have hpeel := pySplit_peel ' ' [] "Bearer".toList rest hocc
  show pySplit (' ' :: ([] : List Char)) (bearerMarker ++ rest)
    = "Bearer".toList :: pySplit (' ' :: ([] : List Char)) rest
  rw [show bearerMarker ++ rest
      = "Bearer".toList ++ (' ' :: ([] : List Char)) ++ rest from rfl]
  exact hpeel

lemma bearer_second_field (rest : List Char) :
    ∃ t, (pySplit (" ".toList) (bearerMarker ++ rest))[1]? = some t := by
  rw [bearer_split]
  have hne : pySplit (" ".toList) rest ≠ [] := pySplitF_ne_nil _ ' ' [] rest
  obtain ⟨x, hx⟩ := getElem_zero_of_ne_nil _ hne
  exact ⟨x, by simp only [List.getElem?_cons_succ]; exact hx⟩

/-- C4 (amended): the auth gate rejects with HTTP 401 exactly when the
Authorization header is missing or does not start with "Bearer "; otherwise
it compares the header's second space-separated field (not the full
remainder after "Bearer ") to the configured secret, rejecting with HTTP 403
when that field differs from the secret and proceeding when it is equal. -/
theorem verify_auth_token_spec (auth : Option (List Char)) :
    verify_auth_token auth none
        = Outcome.httpError 401 "Authorization header missing or invalid"
    ∧ (∀ h : List Char, bearerMarker.isPrefixOf h = false →
        verify_auth_token auth (some h)
          = Outcome.httpError 401 "Authorization header missing or invalid")
    ∧ (∀ rest : List Char, ∃ t,
        (pySplit (" ".toList) (bearerMarker ++ rest))[1]? = some t
        ∧ verify_auth_token auth (some (bearerMarker ++ rest))
            = (if auth = some t then Outcome.ok ()
               else Outcome.httpError 403 "Invalid auth token")) := by
  refine ⟨rfl, ?_, ?_⟩
  · intro h hp
    unfold verify_auth_token
    simp only [hp, Bool.false_eq_true, if_false]
  · intro rest
    obtain ⟨t, ht⟩ := bearer_second_field rest
    refine ⟨t, ht, ?_⟩
    unfold verify_auth_token
    simp only [isPrefixOf_append_self, if_true]
    rw [ht]

/-- C4 counterexample: with the configured secret "a b" (which contains a
space) and the header "Bearer a b" — whose bearer token is exactly the
secret — the gate still rejects with 403, because it compares only the
second space-separated field "a". -/
theorem verify_auth_token_cex :
    verify_auth_token (some ("a b".toList)) (some ("Bearer a b".toList))
      = Outcome.httpError 403 "Invalid auth token" := rfl

/-- Witness for C4 (amended) at concrete headers. -/
theorem verify_auth_token_spec_witness :
    verify_auth_token (some ("s".toList)) none
        = Outcome.httpError 401 "Authorization header missing or invalid"
    ∧ verify_auth_token (some ("s".toList)) (some ("Token x".toList))
        = Outcome.httpError 401 "Authorization header missing or invalid"
    ∧ ∃ t, (pySplit (" ".toList) (bearerMarker ++ "s".toList))[1]? = some t
        ∧ verify_auth_token (some ("s".toList)) (some (bearerMarker ++ "s".toList))
            = (if some ("s".toList) = some t then Outcome.ok ()
               else Outcome.httpError 403 "Invalid auth token") :=
  ⟨(verify_auth_token_spec _).1,
   (verify_auth_token_spec _).2.1 _ (by decide),
   (verify_auth_token_spec _).2.2 _⟩

/-- C9: when the configured secret `AUTH_TOKEN` is unset (`none`), the auth
gate rejects every request: no request ever passes, requests without a
well-formed "Bearer " header get HTTP 401, and requests with any bearer
token get HTTP 403, since no token string equals the absent secret. -/
theorem verify_auth_token_no_secret :
    (∀ header : Option (List Char), (verify_auth_token none header).isOk = false)
    ∧ verify_auth_token none none
        = Outcome.httpError 401 "Authorization header missing or invalid"
    ∧ (∀ h : List Char, bearerMarker.isPrefixOf h = false →
        verify_auth_token none (some h)
          = Outcome.httpError 401 "Authorization header missing or invalid")
    ∧ (∀ rest : List Char,
        verify_auth_token none (some (bearerMarker ++ rest))
          = Outcome.httpError 403 "Invalid auth token") := by
  refine ⟨?_, rfl, ?_, ?_⟩
  · intro header
    cases header with
    | none => rfl
    | some h =>
      unfold verify_auth_token
      by_cases hp : bearerMarker.isPrefixOf h = true
      · simp only [hp, if_true]
        cases hx : (pySplit (" ".toList) h)[1]? with
        | none => rfl
        | some t =>
          dsimp only
          rw [if_neg (by simp)]
          rfl
      · have hpf := Bool.eq_false_iff.mpr hp
        simp only [hpf, Bool.false_eq_true, if_false]
        rfl
  · intro h hp
    unfold verify_auth_token
    simp only [hp, Bool.false_eq_true, if_false]
  · intro rest
    obtain ⟨t, ht⟩ := bearer_second_field rest
    unfold verify_auth_token
    simp only [isPrefixOf_append_self, if_true]
    rw [ht]
    dsimp only
    rw [if_neg (by simp)]

/-- Witness for C9 at concrete headers. -/
theorem verify_auth_token_no_secret_witness :
    (verify_auth_token none (some ("Bearer abc".toList))).isOk = false
    ∧ verify_auth_token none (some ("abc".toList))
        = Outcome.httpError 401 "Authorization header missing or invalid"
    ∧ verify_auth_token none (some (bearerMarker ++ "abc".toList))
        = Outcome.httpError 403 "Invalid auth token" :=
  ⟨verify_auth_token_no_secret.1 _,
   verify_auth_token_no_secret.2.2.1 _ (by decide),
   verify_auth_token_no_secret.2.2.2 _⟩

/-- C10: the auth gate compares only the second space-separated field of the
Authorization header to the secret: a header "Bearer <t1> <rest>" (with
`t1` space-free) is accepted iff `t1` equals the secret, whatever follows
the second space; consequently a configured secret containing a space can
never authenticate any request. -/
theorem verify_auth_token_second_field :
    (∀ (auth : Option (List Char)) (t1 rest : List Char), ' ' ∉ t1 →
      (verify_auth_token auth (some (bearerMarker ++ (t1 ++ ' ' :: rest)))
          = Outcome.ok ()
        ↔ auth = some t1))
    ∧ (∀ (secret : List Char) (header : Option (List Char)), ' ' ∈ secret →
        verify_auth_token (some secret) header ≠ Outcome.ok ()) := by
  constructor
  · intro auth t1 rest hsp
    have hsplit2 : pySplit (" ".toList) (t1 ++ ' ' :: rest)
        = t1 :: pySplit (" ".toList) rest := by
      have heq : t1 ++ (' ' :: ([] : List Char)) ++ rest = t1 ++ ' ' :: rest := by simp
      have hocc : ∀ i, i < t1.length →
          ((' ' : Char) :: ([] : List Char)).isPrefixOf
            (List.drop i (t1 ++ (' ' :: ([] : List Char)) ++ rest)) = false := by
        intro i hi
        rw [heq]
        exact prefixOf_false_of_head_not_mem t1 ' ' [] (' ' :: rest) hsp i hi
      have hpeel := pySplit_peel ' ' [] t1 rest hocc
      rw [heq] at hpeel
      exact hpeel
    have ht : (pySplit (" ".toList) (bearerMarker ++ (t1 ++ ' ' :: rest)))[1]?
        = some t1 := by
      rw [bearer_split, hsplit2]
      simp only [List.getElem?_cons_succ, List.getElem?_cons_zero]
    unfold verify_auth_token
    simp only [isPrefixOf_append_self, if_true]
    rw [ht]
    dsimp only
    by_cases ha : auth = some t1
    · simp [ha]
    · simp [ha]
  · intro secret header hsp
    cases header with
    | none => exact fun hc => Outcome.noConfusion hc
    | some h =>
      unfold verify_auth_token
      by_cases hp : bearerMarker.isPrefixOf h = true
      · simp only [hp, if_true]
        cases hx : (pySplit (" ".toList) h)[1]? with
        | none => exact fun hc => Outcome.noConfusion hc
        | some t =>
          dsimp only
          by_cases hst : secret = t
          · exfalso
            have hmem : t ∈ pySplit (" ".toList) h := mem_of_getElem_some _ 1 t hx
            have hns : ' ' ∉ t := pySplit_mem_single ' ' h t hmem
            exact hns (hst ▸ hsp)
          · rw [if_neg (fun hc => hst (Option.some.inj hc))]
            exact fun hc => Outcome.noConfusion hc
      · have hpf := Bool.eq_false_iff.mpr hp
        simp only [hpf, Bool.false_eq_true, if_false]
        exact fun hc => Outcome.noConfusion hc

/-- Witness for C10: a three-field header authenticating on its second
field, and a spaced secret that its own full bearer credential cannot
satisfy. -/
theorem verify_auth_token_second_field_witness :
    verify_auth_token (some ("tok".toList))
        (some (bearerMarker ++ ("tok".toList ++ ' ' :: "x".toList)))
      = Outcome.ok ()
    ∧ verify_auth_token (some ("a b".toList)) (some ("Bearer a b".toList))
        ≠ Outcome.ok () :=
  ⟨(verify_auth_token_second_field.1 _ _ _ (by decide)).mpr rfl,
   verify_auth_token_second_field.2 _ _ (by decide)⟩

/-- Stubbed response of the outbound Instagram GraphQL call: the status code
and the parsed JSON body.  (The outbound request itself embeds the shortcode
in a fixed form payload; the response is exogenous to the program.) -/
structure IgResponse where
  status : Nat
  body : JValue

/-- Python subscript `v[k]` on a parsed JSON value: field access on a dict,
`KeyError` when the key is absent, `TypeError` on any non-dict value. -/
def getItem (v : JValue) (k : String) : Except PyExc JValue :=
  match v with
  | JValue.obj fs =>
    match lookupField fs k with
    | some x => Except.ok x
    | none => Except.error PyExc.keyError
  | _ => Except.error PyExc.typeError

/-- The fixed JSON path `['data']['xdt_shortcode_media']['thumbnail_src']`
read by `image_downloader`. -/
def jsonPath3 (b : JValue) : Except PyExc JValue := do
  let d ← getItem b "data"
  let m ← getItem d "xdt_shortcode_media"
  getItem m "thumbnail_src"

/-- src/main.py `image_downloader`: non-200 upstream status is propagated
as an `HTTPException` with the same status; then the nested field is read,
with `KeyError` caught and mapped to HTTP 500 (a `TypeError` from indexing a
non-dict would propagate uncaught, the `pyError` arm). -/
def image_downloader (resp : IgResponse) : Outcome JValue :=
  if resp.status ≠ 200 then
    Outcome.httpError resp.status "Error retrieving data from Instagram"
  else
    match jsonPath3 resp.body with
    | Except.ok v => Outcome.ok v
    | Except.error PyExc.keyError =>
        Outcome.httpError 500 "Invalid response structure from Instagram"
    | Except.error e => Outcome.pyError e

/-- C5: the image resolver propagates a non-200 upstream status with a
generic detail message; on a 200 response it returns the value found at the
JSON path `data.xdt_shortcode_media.thumbnail_src`, and fails with HTTP 500
when the expected nested field is absent from the body. -/
theorem image_downloader_spec (resp : IgResponse) :
    (resp.status ≠ 200 →
      image_downloader resp
        = Outcome.httpError resp.status "Error retrieving data from Instagram")
    ∧ (resp.status = 200 → ∀ v, jsonPath3 resp.body = Except.ok v →
        image_downloader resp = Outcome.ok v)
    ∧ (resp.status = 200 → jsonPath3 resp.body = Except.error PyExc.keyError →
        image_downloader resp
          = Outcome.httpError 500 "Invalid response structure from Instagram") := by
  refine ⟨?_, ?_, ?_⟩
  · intro h
    unfold image_downloader
    rw [if_pos h]
  · intro h v hv
    unfold image_downloader
    rw [if_neg (fun hc => hc h), hv]
  · intro h hv
    unfold image_downloader
    rw [if_neg (fun hc => hc h), hv]

/-- Witness for C5: a 404 upstream, a well-formed 200 body, and a 200 body
missing the nested field. -/
theorem image_downloader_spec_witness :
    image_downloader ⟨404, JValue.null⟩
        = Outcome.httpError 404 "Error retrieving data from Instagram"
    ∧ image_downloader
        ⟨200, JValue.obj [("data", JValue.obj [("xdt_shortcode_media",
            JValue.obj [("thumbnail_src", JValue.str "https://img/x.jpg")])])]⟩
        = Outcome.ok (JValue.str "https://img/x.jpg")
    ∧ image_downloader ⟨200, JValue.obj []⟩
        = Outcome.httpError 500 "Invalid response structure from Instagram" :=
  ⟨(image_downloader_spec _).1 (by decide),
   (image_downloader_spec _).2.1 rfl _ rfl,
   (image_downloader_spec _).2.2 rfl rfl⟩

/-- Modelled from the spec: the static registry of country names behind
`pycountry.countries.get(name=...)` belongs to the external `pycountry`
package and is not part of this repository; the spec describes it as a
static registry of country names with their two-letter codes, queried by
exact match.  A representative finite fragment is used here. -/
def countries : List (String × String) :=
  [("India", "IN"), ("United States", "US"), ("France", "FR"),
   ("Germany", "DE"), ("Japan", "JP")]

/-- Exact-match lookup of a country name in the registry. -/
def lookupName : List (String × String) → String → Option String
  | [], _ => none
  | (n, code) :: rest, name => if name = n then some code else lookupName rest name

/-- src/main.py `get_country_iso_code`: exact registry match yields the
alpha-2 code, anything else is HTTP 400. -/
def get_country_iso_code (country_name : String) : Outcome String :=
  match lookupName countries country_name with
  | some code => Outcome.ok code
  | none => Outcome.httpError 400 "Invalid country name provided"

/-- C6: for every country name with an exact match in the static registry
the normalizer returns that country's two-letter code (deterministically, it
is a pure function of the registry); for every name with no exact match it
fails with HTTP 400. -/
theorem get_country_iso_code_spec :
    (∀ name code, lookupName countries name = some code →
      get_country_iso_code name = Outcome.ok code)
    ∧ (∀ name, lookupName countries name = none →
        get_country_iso_code name
          = Outcome.httpError 400 "Invalid country name provided") := by
  constructor
  · intro name code h
    unfold get_country_iso_code
    rw [h]
  · intro name h
    unfold get_country_iso_code
    rw [h]

/-- Witness for C6: a registered name and an unregistered one. -/
theorem get_country_iso_code_spec_witness :
    get_country_iso_code "India" = Outcome.ok "IN"
    ∧ get_country_iso_code "Atlantis"
        = Outcome.httpError 400 "Invalid country name provided" :=
  ⟨get_country_iso_code_spec.1 "India" "IN" rfl,
   get_country_iso_code_spec.2 "Atlantis" rfl⟩

/-- Stubbed response of the outbound SerpAPI visual-search call.  Its JSON
body is an object; it is modelled directly as the object's field list.  (The
outbound request embeds the image URL, region code and API key as query
parameters; the response is exogenous to the program.) -/
structure LensResponse where
  status : Nat
  body : List (String × JValue)

/-- View a JSON value as a list of match records: Python iterates the
`visual_matches` value and evaluates `'price' in match` on each element,
which raises `TypeError` unless the value is a list of dicts; any other
shape is modelled as a `TypeError`. -/
def allObjs : List JValue → Option (List MatchRecord)
  | [] => some []
  | JValue.obj fs :: rest => (allObjs rest).map (fun ms => fs :: ms)
  | _ :: _ => none

/-- src/main.py `google_lens_search` (response handling): non-200 upstream
status is propagated; otherwise, when the body has a `visual_matches` key,
that entry — and only that entry — is replaced by its filtered version, and
when the key is absent the body is returned untouched. -/
def google_lens_search (resp : LensResponse) : Outcome (List (String × JValue)) :=
  if resp.status ≠ 200 then
    Outcome.httpError resp.status "Error retrieving data from Google Lens API"
  else
    match lookupField resp.body "visual_matches" with
    | some (JValue.arr elems) =>
      match allObjs elems with
      | some ms =>
        Outcome.ok (setField resp.body "visual_matches"
          (JValue.arr ((filter_visual_matches ms).map JValue.obj)))
      | none => Outcome.pyError PyExc.typeError
    | some _ => Outcome.pyError PyExc.typeError
    | none => Outcome.ok resp.body

lemma allObjs_map_obj :
    ∀ ms : List MatchRecord, allObjs (ms.map JValue.obj) = some ms := by
  intro ms
  induction ms with
  | nil => rfl
  | cons m rest ih => simp [allObjs, ih]

lemma lookupField_setField_ne (fs : List (String × JValue)) (k k' : String)
    (v : JValue) (h : k' ≠ k) :
    lookupField (setField fs k v) k' = lookupField fs k' := by
  induction fs with
  | nil => simp [setField, lookupField, h]
  | cons p rest ih =>
    obtain ⟨k0, v0⟩ := p
    by_cases h0 : k0 = k
    · subst h0
      simp only [setField, if_pos rfl, lookupField, if_neg h]
    · simp only [setField, if_neg h0, lookupField]
      by_cases h1 : k' = k0
      · simp [h1]
      · simp [h1, ih]

/-- C8: on a successful (200) visual-search call, every field of the
response body other than the entry under `visual_matches` is returned
unchanged (the filtered body agrees with the original on every other key),
and when the body contains no `visual_matches` key the entire body is
returned unmodified. -/
theorem google_lens_search_frame (resp : LensResponse) (h200 : resp.status = 200) :
    (lookupField resp.body "visual_matches" = none →
      google_lens_search resp = Outcome.ok resp.body)
    ∧ (∀ ms : List MatchRecord,
        lookupField resp.body "visual_matches"
            = some (JValue.arr (ms.map JValue.obj)) →
        google_lens_search resp
            = Outcome.ok (setField resp.body "visual_matches"
                (JValue.arr ((filter_visual_matches ms).map JValue.obj)))
          ∧ ∀ k, k ≠ "visual_matches" →
              lookupField (setField resp.body "visual_matches"
                  (JValue.arr ((filter_visual_matches ms).map JValue.obj))) k
                = lookupField resp.body k) := by
  have hnn : ¬ (resp.status ≠ 200) := fun hc => hc h200
  constructor
  · intro h
    unfold google_lens_search
    rw [if_neg hnn, h]
  · intro ms h
    constructor
    · unfold google_lens_search
      rw [if_neg hnn, h]
      dsimp only
      rw [allObjs_map_obj]
    · intro k hk
      exact lookupField_setField_ne resp.body "visual_matches" k _ hk

/-- Witness for C8: a body without `visual_matches`, and one with it plus an
unrelated field that survives untouched. -/
theorem google_lens_search_frame_witness :
    google_lens_search ⟨200, [("x", JValue.num 1)]⟩
        = Outcome.ok [("x", JValue.num 1)]
    ∧ google_lens_search
        ⟨200, [("visual_matches", JValue.arr
            [JValue.obj [("price", JValue.num 5), ("in_stock", JValue.bool true)],
             JValue.obj []]),
           ("other", JValue.str "k")]⟩
        = Outcome.ok (setField
            [("visual_matches", JValue.arr
                [JValue.obj [("price", JValue.num 5), ("in_stock", JValue.bool true)],
                 JValue.obj []]),
               ("other", JValue.str "k")]
            "visual_matches"
            (JValue.arr ((filter_visual_matches
                [[("price", JValue.num 5), ("in_stock", JValue.bool true)],
                 []]).map JValue.obj)))
    ∧ lookupField (setField
            [("visual_matches", JValue.arr
                [JValue.obj [("price", JValue.num 5), ("in_stock", JValue.bool true)],
                 JValue.obj []]),
               ("other", JValue.str "k")]
            "visual_matches"
            (JValue.arr ((filter_visual_matches
                [[("price", JValue.num 5), ("in_stock", JValue.bool true)],
                 []]).map JValue.obj))) "other"
        = lookupField
            [("visual_matches", JValue.arr
                [JValue.obj [("price", JValue.num 5), ("in_stock", JValue.bool true)],
                 JValue.obj []]),
               ("other", JValue.str "k")] "other" :=
  ⟨(google_lens_search_frame ⟨200, [("x", JValue.num 1)]⟩ rfl).1 rfl,
   ((google_lens_search_frame
      ⟨200, [("visual_matches", JValue.arr
          [JValue.obj [("price", JValue.num 5), ("in_stock", JValue.bool true)],
           JValue.obj []]),
         ("other", JValue.str "k")]⟩ rfl).2
      [[("price", JValue.num 5), ("in_stock", JValue.bool true)], []] rfl).1,
   ((google_lens_search_frame
      ⟨200, [("visual_matches", JValue.arr
          [JValue.obj [("price", JValue.num 5), ("in_stock", JValue.bool true)],
           JValue.obj []]),
         ("other", JValue.str "k")]⟩ rfl).2
      [[("price", JValue.num 5), ("in_stock", JValue.bool true)], []] rfl).2
     "other" (by decide)⟩

/-- The world one request runs in: the process configuration (`AUTH_TOKEN`),
the request (header, url, country) and the stubbed responses of the two
outbound HTTP calls. -/
structure World where
  authToken : Option (List Char)
  authHeader : Option (List Char)
  url : List Char
  country : String
  igResponse : IgResponse
  lensResponse : LensResponse

/-- Tags of the outbound HTTP calls a request can make. -/
inductive CallTag where
  | instagram : CallTag
  | lens : CallTag
deriving DecidableEq

/-- src/main.py `process_instagram_url`: auth gate, extract the post id,
resolve the image via the Instagram call, normalize the country, run the
visual search, wrap the result under `google_lens_result`.  Each raised
exception aborts the remaining stages.  The second component records which
outbound calls were performed (a resolver call happens — and is recorded —
even when it fails, since the status is checked after the request). -/
def process_instagram_url (w : World) : Outcome JValue × List CallTag :=
  match verify_auth_token w.authToken w.authHeader with
  | Outcome.httpError code d => (Outcome.httpError code d, [])
  | Outcome.pyError e => (Outcome.pyError e, [])
  | Outcome.ok _ =>
    match extract_instagram_id w.url with
    | Outcome.httpError code d => (Outcome.httpError code d, [])
    | Outcome.pyError e => (Outcome.pyError e, [])
    | Outcome.ok _postId =>
      match image_downloader w.igResponse with
      | Outcome.httpError code d => (Outcome.httpError code d, [CallTag.instagram])
      | Outcome.pyError e => (Outcome.pyError e, [CallTag.instagram])
      | Outcome.ok _imageUrl =>
        match get_country_iso_code w.country with
        | Outcome.httpError code d => (Outcome.httpError code d, [CallTag.instagram])
        | Outcome.pyError e => (Outcome.pyError e, [CallTag.instagram])
        | Outcome.ok _iso =>
          match google_lens_search w.lensResponse with
          | Outcome.httpError code d =>
              (Outcome.httpError code d, [CallTag.instagram, CallTag.lens])
          | Outcome.pyError e =>
              (Outcome.pyError e, [CallTag.instagram, CallTag.lens])
          | Outcome.ok result =>
              (Outcome.ok (JValue.obj [("google_lens_result", JValue.obj result)]),
               [CallTag.instagram, CallTag.lens])

/-- C3: pipeline failures short-circuit all later stages: an auth-gate
rejection surfaces as-is with no outbound call made; when the image-resolver
call fails the visual-search call is never invoked; and a normal result is
produced only when every stage succeeded, so no partial results are ever
returned. -/
theorem process_short_circuit (w : World) :
    (∀ code d, verify_auth_token w.authToken w.authHeader
        = Outcome.httpError code d →
      process_instagram_url w = (Outcome.httpError code d, []))
    ∧ ((image_downloader w.igResponse).isOk = false →
        CallTag.lens ∉ (process_instagram_url w).2)
    ∧ (∀ r, (process_instagram_url w).1 = Outcome.ok r →
        ∃ pid v iso res,
          verify_auth_token w.authToken w.authHeader = Outcome.ok ()
          ∧ extract_instagram_id w.url = Outcome.ok pid
          ∧ image_downloader w.igResponse = Outcome.ok v
          ∧ get_country_iso_code w.country = Outcome.ok iso
          ∧ google_lens_search w.lensResponse = Outcome.ok res
          ∧ r = JValue.obj [("google_lens_result", JValue.obj res)]) := by
  refine ⟨?_, ?_, ?_⟩
  · intro code d hv
    unfold process_instagram_url
    rw [hv]
  · intro himg
    unfold process_instagram_url
    cases hv : verify_auth_token w.authToken w.authHeader with
    | httpError code d => simp
    | pyError e => simp
    | ok u =>
      cases he : extract_instagram_id w.url with
      | httpError code d => simp
      | pyError e => simp
      | ok pid =>
        cases hi : image_downloader w.igResponse with
        | ok v =>
          rw [hi] at himg
          simp [Outcome.isOk] at himg
        | httpError code d => simp
        | pyError e => simp
  · intro r hr
    unfold process_instagram_url at hr
    cases hv : verify_auth_token w.authToken w.authHeader with
    | httpError code d => rw [hv] at hr; simp at hr
    | pyError e => rw [hv] at hr; simp at hr
    | ok u =>
      rw [hv] at hr
      cases he : extract_instagram_id w.url with
      | httpError code d => rw [he] at hr; simp at hr
      | pyError e => rw [he] at hr; simp at hr
      | ok pid =>
        rw [he] at hr
        cases hi : image_downloader w.igResponse with
        | httpError code d => rw [hi] at hr; simp at hr
        | pyError e => rw [hi] at hr; simp at hr
        | ok v =>
          rw [hi] at hr
          cases hc : get_country_iso_code w.country with
          | httpError code d => rw [hc] at hr; simp at hr
          | pyError e => rw [hc] at hr; simp at hr
          | ok iso =>
            rw [hc] at hr
            cases hg : google_lens_search w.lensResponse with
            | httpError code d => rw [hg] at hr; simp at hr
            | pyError e => rw [hg] at hr; simp at hr
            | ok res =>
              rw [hg] at hr
              dsimp only at hr
              injection hr with hval
              exact ⟨pid, v, iso, res, by cases u; rfl, rfl, rfl, rfl, rfl,
                hval.symm⟩

/-- Witness for C3: a world with no credential (rejected with no calls), one
whose resolver call returns 500 (no lens call), and a fully succeeding
world. -/
theorem process_short_circuit_witness :
    process_instagram_url
        ⟨none, none, "u".toList, "India", ⟨200, JValue.null⟩, ⟨200, []⟩⟩
      = (Outcome.httpError 401 "Authorization header missing or invalid", [])
    ∧ CallTag.lens ∉
        (process_instagram_url
          ⟨some ("t".toList), some ("Bearer t".toList), "a/p/B/".toList, "India",
           ⟨500, JValue.null⟩, ⟨200, []⟩⟩).2
    ∧ ∃ pid v iso res,
        verify_auth_token (some ("t".toList)) (some ("Bearer t".toList))
            = Outcome.ok ()
        ∧ extract_instagram_id ("a/p/B/".toList) = Outcome.ok pid
        ∧ image_downloader
            ⟨200, JValue.obj [("data", JValue.obj [("xdt_shortcode_media",
                JValue.obj [("thumbnail_src", JValue.str "https://img/x.jpg")])])]⟩
            = Outcome.ok v
        ∧ get_country_iso_code "India" = Outcome.ok iso
        ∧ google_lens_search ⟨200, [("visual_matches", JValue.arr [])]⟩
            = Outcome.ok res
        ∧ JValue.obj [("google_lens_result",
              JValue.obj [("visual_matches", JValue.arr [])])]
            = JValue.obj [("google_lens_result", JValue.obj res)] :=
  ⟨(process_short_circuit _).1 401 _ rfl,
   (process_short_circuit _).2.1 rfl,
   (process_short_circuit
      ⟨some ("t".toList), some ("Bearer t".toList), "a/p/B/".toList, "India",
       ⟨200, JValue.obj [("data", JValue.obj [("xdt_shortcode_media",
           JValue.obj [("thumbnail_src", JValue.str "https://img/x.jpg")])])]⟩,
       ⟨200, [("visual_matches", JValue.arr [])]⟩⟩).2.2
     (JValue.obj [("google_lens_result",
        JValue.obj [("visual_matches", JValue.arr [])])]) rfl⟩
